import Mathlib

set_option maxRecDepth 4000

/-!
Verification development for the obsidian-focus plugin.

Shallow embedding of the core of the plugin:
  * the todo parser (src/services/TodoParser.ts): id hashing, checkbox line
    grammar, indent computation, the stack-based structural-nesting builder,
    and flattening;
  * the sidebar Ordering Store (src/views/TodoSidebar.ts): the three persisted
    maps (priority order, nesting, sections) and their mutation operations
    (drag-and-drop reorder/nest, section assignment, un-nest) plus the
    reconciliation sweep cleanupStaleData.

Representation conventions:
  * JavaScript plain objects used as string-keyed maps are embedded as
    association lists (List (TodoId × value)).  Property read is first-match
    lookup (alookup), property write replaces the existing entry in place or
    appends a fresh one at the end (aset, matching JS insertion-order
    semantics), and `delete` removes the key (adel).  The object iterations in
    the source (Object.entries loops) are order-independent per-entry edits
    and are embedded as map/filter over the entry list.
  * JavaScript string truthiness (`if (x)` on a possibly-undefined string) is
    embedded by truthyStr: absent and the empty string are both falsy.
    Arrays are always truthy, so truthiness of a looked-up array is isSome.
  * JS numbers appearing here are integers (array indices, the 32-bit hash),
    embedded as Int/Nat with explicit wrapping where the source wraps.
  * Array.prototype.sort is stable (ES2019); it is embedded as insertion sort,
    which computes the unique stable sort for a consistent comparator.
    String.prototype.localeCompare is host-defined and is passed in as an
    explicit comparison parameter.
-/

/-- Item / section identifiers (JavaScript strings). -/
abbrev TodoId := String

/-- Property read on a JS object embedded as an association list. -/
def alookup {α : Type} (k : TodoId) : List (TodoId × α) → Option α
  | [] => none
  | e :: rest => if e.1 = k then some e.2 else alookup k rest

/-- Property write on a JS object: replaces the existing entry in place,
or appends a new entry at the end (JS objects keep insertion order). -/
def aset {α : Type} (k : TodoId) (v : α) : List (TodoId × α) → List (TodoId × α)
  | [] => [(k, v)]
  | e :: rest => if e.1 = k then (k, v) :: rest else e :: aset k v rest

/-- `delete obj[k]` on a JS object embedded as an association list:
remove the key's entry. -/
def adel {α : Type} (k : TodoId) : List (TodoId × α) → List (TodoId × α)
  | [] => []
  | e :: rest => if e.1 = k then adel k rest else e :: adel k rest

/-- Well-formedness of an embedded JS object: keys occur at most once
(always true of a real JS object). -/
abbrev keysNodup {α : Type} (m : List (TodoId × α)) : Prop := (m.map Prod.fst).Nodup

/-- JS string truthiness of a possibly-undefined string property:
`undefined` and `""` are falsy. -/
def truthyStr : Option String → Option String
  | none => none
  | some s => if s = "" then none else some s

/-- Array.prototype.indexOf: index of the first occurrence, -1 if absent. -/
def jsIndexOf (x : TodoId) : List TodoId → Int
  | [] => -1
  | y :: ys => if y = x then 0 else if jsIndexOf x ys = -1 then -1 else jsIndexOf x ys + 1

/-- `arr.splice(start, 0, x)`: insert `x` at `start`, where a negative start
counts from the end (clamped at 0) and a start past the end appends. -/
def jsSpliceIns {α : Type} (l : List α) (start : Int) (x : α) : List α :=
  let len : Int := l.length
  let actual : Nat := (if start < 0 then max (len + start) 0 else min start len).toNat
  l.take actual ++ x :: l.drop actual

/-- `n` steps up the nesting parent map (a step follows a truthy parent entry,
exactly the steps the source's ancestor walk takes).  `parentIterN m n x =
some y` means `y` is reached from `x` after exactly `n` parent steps. -/
def parentIterN (m : List (TodoId × TodoId)) : Nat → TodoId → Option TodoId
  | 0, x => some x
  | n+1, x =>
    match truthyStr (alookup x m) with
    | some p => parentIterN m n p
    | none => none

/-! ## The todo item type (src/models/types.ts)

Fields not used by any verified operation (tags, linkedNote, originalLine)
are omitted; `source.path` and `source.line` are inlined as `path`/`line`. -/

inductive Todo where
  | mk (id : String) (text : String) (completed : Bool) (path : String) (line : Nat)
      (indent : Nat) (children : List Todo) (capturedAt : Int)

def Todo.id : Todo → String
  | .mk v _ _ _ _ _ _ _ => v

def Todo.text : Todo → String
  | .mk _ v _ _ _ _ _ _ => v

def Todo.completed : Todo → Bool
  | .mk _ _ v _ _ _ _ _ => v

def Todo.path : Todo → String
  | .mk _ _ _ v _ _ _ _ => v

def Todo.line : Todo → Nat
  | .mk _ _ _ _ v _ _ _ => v

def Todo.indent : Todo → Nat
  | .mk _ _ _ _ _ v _ _ => v

def Todo.children : Todo → List Todo
  | .mk _ _ _ _ _ _ v _ => v

def Todo.capturedAt : Todo → Int
  | .mk _ _ _ _ _ _ _ v => v

/-- `todo.children.push(child)` (structural child attachment). -/
def Todo.addChild : Todo → Todo → Todo
  | .mk i t c p l ind ch cap, child => .mk i t c p l ind (ch ++ [child]) cap

/-! ## TodoParser (src/services/TodoParser.ts) -/

/-- The characters matched by the JS regex class `\s` (ASCII part plus the
named Unicode spaces that can plausibly occur; `\s` further contains other
rare Unicode space separators, none of which affect the claims). -/
def jsWhitespace (c : Char) : Bool :=
  c == ' ' || c == '\t' || c == '\n' || c == '\r' || c == '\x0b' || c == '\x0c' ||
  c == '\u00A0' || c == '\u2028' || c == '\u2029' || c == '\uFEFF'

/-- A JS line terminator (what `.` does not match in a regex). -/
def lineTerminator (c : Char) : Bool :=
  c == '\n' || c == '\r' || c == '\u2028' || c == '\u2029'

/-- String.prototype.trim: strip leading and trailing whitespace. -/
def jsTrim (s : String) : String :=
  String.mk (((s.data.dropWhile jsWhitespace).reverse.dropWhile jsWhitespace).reverse)

/-- getIndentLevel: match the leading `\s*` run; tabs count 1 each, and every
remaining (non-tab) whitespace character counts as a space
(`whitespace.replace(/\t/g, '').length`), two spaces per level. -/
def getIndentLevel (line : String) : Nat :=
  let ws := line.data.takeWhile jsWhitespace
  let tabs := (ws.filter (fun c => c == '\t')).length
  let spaces := ws.length - tabs
  tabs + spaces / 2

/-- ToInt32: wrap an integer into the signed 32-bit range (the `hash & hash`
and `<<` conversions in generateId). -/
def toInt32 (n : Int) : Int := (n + 2147483648) % 4294967296 - 2147483648

/-- One step of generateId's loop:
`hash = ((hash << 5) - hash) + char; hash = hash & hash`. -/
def hashStep (h : Int) (c : Nat) : Int := toInt32 (toInt32 (h * 32) - h + c)

/-- The hash loop of generateId over all code units of the string.  (Lean
chars are Unicode scalars; they agree with JS UTF-16 code units on the
Basic Multilingual Plane.) -/
def hashString (s : String) : Int := s.data.foldl (fun h c => hashStep h c.toNat) 0

/-- One base-36 digit (0-9 then a-z), as produced by Number.toString(36). -/
def base36Digit (d : Nat) : Char := if d < 10 then Char.ofNat (48 + d) else Char.ofNat (87 + d)

/-- Digit expansion loop of Number.toString(36).  The fuel bounds the digit
count; 8 digits cover every value up to 36^8 > 2^31, so the fuel is never
exhausted for a 32-bit hash magnitude. -/
def base36Go : Nat → Nat → List Char
  | 0, _ => []
  | fuel+1, n => if n = 0 then [] else base36Go fuel (n / 36) ++ [base36Digit (n % 36)]

/-- Math.abs(hash).toString(36) for a natural number. -/
def natToBase36 (n : Nat) : String :=
  if n = 0 then "0" else String.mk (base36Go 8 n)

/-- generateId: hash `path::content` and render the absolute value base 36. -/
def generateId (filePath lineContent : String) : String :=
  natToBase36 (hashString (filePath ++ "::" ++ lineContent)).natAbs

/-- parseLine: match `^(\s*)- \[([ x])\] (.+)$` and build the item.  The
leading `\s*` is maximal-munch (backtracking cannot help since `-` is not
whitespace), the text group must be non-empty and free of line terminators
(`.` does not match them and `$` anchors at end of string). -/
def parseLine (line : String) (lineNumber : Nat) (filePath : String)
    (capturedAt : Int) : Option Todo :=
  match line.data.dropWhile jsWhitespace with
  | '-' :: ' ' :: '[' :: c :: ']' :: ' ' :: text =>
    if (c == ' ' || c == 'x') && !text.isEmpty && text.all (fun ch => !(lineTerminator ch)) then
      some (.mk (generateId filePath (jsTrim line)) (jsTrim (String.mk text)) (c == 'x')
        filePath lineNumber (getIndentLevel line) [] capturedAt)
    else none
  | _ => none

/-- Collapse the parser's open-item stack (head = innermost) while the top
item's indent is ≥ `ind`: each popped item is complete and attaches as the
last structural child of the item below it, or joins the finished top-level
list `acc` when it is the bottom of the stack.  This realises, functionally,
the mutation-based attachment of the source (which attaches on creation and
mutates children in place): attachment is deferred to pop time, which yields
the same final trees and the same orders.  The fuel is called with the stack
length, which the loop can never exceed. -/
def popFrames (ind : Nat) : Nat → List Todo → List Todo → List Todo × List Todo
  | 0, acc, stack => (acc, stack)
  | _+1, acc, [] => (acc, [])
  | fuel+1, acc, f :: rest =>
    if ind ≤ f.indent then
      match rest with
      | [] => popFrames ind fuel (acc ++ [f]) []
      | g :: rest' => popFrames ind fuel acc (g.addChild f :: rest')
    else (acc, f :: rest)

/-- One line of parseFile's scan: state is (finished top-level items, open
stack).  An indent-0 item flushes the whole stack and opens a new chain; an
indented item pops stack entries with indent ≥ its own and becomes the new
top (its parent, if any, is the item now below it). -/
def parseFileStep (filePath : String) (capturedAt : Int)
    (st : List Todo × List Todo) (lineWithNo : String × Nat) : List Todo × List Todo :=
  match parseLine lineWithNo.1 lineWithNo.2 filePath capturedAt with
  | none => st
  | some todo =>
    if todo.indent = 0 then
      let flushed := popFrames 0 st.2.length st.1 st.2
      (flushed.1, [todo])
    else
      let popped := popFrames todo.indent st.2.length st.1 st.2
      (popped.1, todo :: popped.2)

/-- content.split(newline): split a character list at every newline
(JS String.split with a one-character string separator). -/
def splitNl : List Char → List (List Char)
  | [] => [[]]
  | c :: rest =>
    match splitNl rest with
    | h :: t => if c = '\n' then [] :: h :: t else (c :: h) :: t
    | [] => [[c]]

/-- parseFile: split the content on newlines, scan each line (1-based line
numbers), and flush the remaining stack.  The mtime cache and the
capturedAt derivation from the file name are host-environment concerns and
are outside the scan; capturedAt is taken as a parameter. -/
def parseFile (filePath : String) (capturedAt : Int) (content : String) : List Todo :=
  let lines := ((splitNl content.data).map String.mk).enum.map (fun p => (p.2, p.1 + 1))
  let final := lines.foldl (parseFileStep filePath capturedAt) ([], [])
  (popFrames 0 final.2.length final.1 final.2).1

/-- flattenTodos: depth-first walk emitting each item unless it is completed
and includeCompleted is false; children are traversed regardless. -/
def flattenTodos : List Todo → Bool → List Todo
  | [], _ => []
  | .mk i t c p l ind ch cap :: rest, includeCompleted =>
    (if !c || includeCompleted then [Todo.mk i t c p l ind ch cap] else []) ++
      flattenTodos ch includeCompleted ++ flattenTodos rest includeCompleted

/-- Depth-first preorder of an item forest (specification vocabulary for the
flattening claims). -/
def preorderTodos : List Todo → List Todo
  | [] => []
  | .mk i t c p l ind ch cap :: rest =>
    Todo.mk i t c p l ind ch cap :: (preorderTodos ch ++ preorderTodos rest)

/-! ## The sidebar Ordering Store (src/views/TodoSidebar.ts) -/

/-- before/after classification of a reorder drop. -/
inductive DropPosition
  | before
  | after
deriving DecidableEq

/-- The three persisted stores owned by the sidebar: priorityOrder,
nesting (parentMap + childOrder) and sections (assignments + sectionOrder).
The section descriptor list (names/collapse flags) is not consulted by any
verified operation and is omitted. -/
structure SidebarState where
  priorityOrder : List TodoId
  parentMap : List (TodoId × TodoId)
  childOrder : List (TodoId × List TodoId)
  assignments : List (TodoId × TodoId)
  sectionOrder : List (TodoId × List TodoId)
deriving DecidableEq

/-- removeTodoFromNesting: drop the id's parent entry, filter it out of every
child list (deleting lists that end up empty), and drop it from
priorityOrder. -/
def removeTodoFromNesting (todoId : TodoId) (s : SidebarState) : SidebarState :=
  { s with
    parentMap := adel todoId s.parentMap
    childOrder := (s.childOrder.map (fun e => (e.1, e.2.filter (fun i => !(i == todoId))))).filter
      (fun e => !(e.2.isEmpty))
    priorityOrder := s.priorityOrder.filter (fun i => !(i == todoId)) }

/-- removeTodoFromSections: if the id has a (truthy) section assignment whose
order list exists, filter the id out of that list; then delete the
assignment. -/
def removeTodoFromSections (todoId : TodoId) (s : SidebarState) : SidebarState :=
  let so :=
    match truthyStr (alookup todoId s.assignments) with
    | some sectionId =>
      match alookup sectionId s.sectionOrder with
      | some order => aset sectionId (order.filter (fun i => !(i == todoId))) s.sectionOrder
      | none => s.sectionOrder
    | none => s.sectionOrder
  { s with sectionOrder := so, assignments := adel todoId s.assignments }

/-- assignToSection: remove the id's current section membership, drop it from
priorityOrder, record the new assignment, and append it to the section's
order list if not already present (creating the list when missing). -/
def assignToSection (todoId sectionId : TodoId) (s : SidebarState) : SidebarState :=
  let s1 := removeTodoFromSections todoId s
  let s2 := { s1 with priorityOrder := s1.priorityOrder.filter (fun i => !(i == todoId)) }
  let s3 := { s2 with assignments := aset todoId sectionId s2.assignments }
  let so1 :=
    match alookup sectionId s3.sectionOrder with
    | some _ => s3.sectionOrder
    | none => aset sectionId [] s3.sectionOrder
  let cur := (alookup sectionId so1).getD []
  let so2 := if cur.contains todoId then so1 else aset sectionId (cur ++ [todoId]) so1
  { s3 with sectionOrder := so2 }

/-- handleDropReorder: capture the target's (truthy) parent and section,
detach the dragged id from nesting and sections, then insert beside the
target in the childOrder list of the target's parent, or in the target's
section order, or in priorityOrder. -/
def handleDropReorder (draggedId targetId : TodoId) (position : DropPosition)
    (s : SidebarState) : SidebarState :=
  let targetParentId := truthyStr (alookup targetId s.parentMap)
  let targetSectionId := truthyStr (alookup targetId s.assignments)
  let s1 := removeTodoFromSections draggedId (removeTodoFromNesting draggedId s)
  match targetParentId with
  | some tp =>
    let siblings := (alookup tp s1.childOrder).getD []
    let targetIdx := jsIndexOf targetId siblings
    let insertIdx := match position with | .before => targetIdx | .after => targetIdx + 1
    { s1 with
      parentMap := aset draggedId tp s1.parentMap
      childOrder := aset tp (jsSpliceIns siblings insertIdx draggedId) s1.childOrder }
  | none =>
    match targetSectionId with
    | some sid =>
      let so1 :=
        match alookup sid s1.sectionOrder with
        | some _ => s1.sectionOrder
        | none => aset sid [] s1.sectionOrder
      let order := (alookup sid so1).getD []
      let targetIdx := jsIndexOf targetId order
      let insertIdx := match position with | .before => targetIdx | .after => targetIdx + 1
      let order' := if targetIdx = -1 then order ++ [draggedId]
        else jsSpliceIns order insertIdx draggedId
      { s1 with
        assignments := aset draggedId sid s1.assignments
        sectionOrder := aset sid order' so1 }
    | none =>
      let targetRootIdx := jsIndexOf targetId s1.priorityOrder
      let insertIdx := match position with | .before => targetRootIdx | .after => targetRootIdx + 1
      let po' := if targetRootIdx = -1 then s1.priorityOrder ++ [draggedId]
        else jsSpliceIns s1.priorityOrder insertIdx draggedId
      { s1 with priorityOrder := po' }

/-- The ancestor walk of isDescendantOf: follow (truthy) parent entries from
`cur` upward;answers true when the ancestor equals `anc`, false on a revisit
(corrupt data) or when the chain ends.  The fuel is started at
`parentMap.length + 1`, which the walk can never exhaust: every iteration
adds a distinct key of the map to the visited set. -/
def isDescendantGo (m : List (TodoId × TodoId)) (anc : TodoId) :
    Nat → TodoId → List TodoId → Bool
  | 0, _, _ => false
  | fuel+1, cur, visited =>
    match truthyStr (alookup cur m) with
    | none => false
    | some p =>
      if visited.contains cur then false
      else if p = anc then true
      else isDescendantGo m anc fuel p (cur :: visited)

/-- isDescendantOf(todoId, potentialAncestorId): is `potentialAncestorId` an
ancestor of `todoId` under the parent map (equivalently, is `todoId` its
descendant)? -/
def isDescendantOf (m : List (TodoId × TodoId)) (todoId potentialAncestorId : TodoId) : Bool :=
  isDescendantGo m potentialAncestorId (m.length + 1) todoId []

/-- handleDropNest: decline (no state change) when the proposed parent is a
descendant of the dragged item; otherwise detach the dragged id and append
it as the last child of the new parent. -/
def handleDropNest (draggedId newParentId : TodoId) (s : SidebarState) : SidebarState :=
  if isDescendantOf s.parentMap newParentId draggedId then s
  else
    let s1 := removeTodoFromSections draggedId (removeTodoFromNesting draggedId s)
    let co1 :=
      match alookup newParentId s1.childOrder with
      | some _ => s1.childOrder
      | none => aset newParentId [] s1.childOrder
    let cur := (alookup newParentId co1).getD []
    { s1 with
      parentMap := aset draggedId newParentId s1.parentMap
      childOrder := aset newParentId (cur ++ [draggedId]) co1 }

/-- unnestTodo: no-op without a (truthy) parent entry; otherwise remove the
nesting edge, filter the id out of the former parent's child list (deleting
it when empty), clear any section assignment, and re-insert the id into
priorityOrder right after the former parent (append when the parent has no
position there). -/
def unnestTodo (todoId : TodoId) (s : SidebarState) : SidebarState :=
  match truthyStr (alookup todoId s.parentMap) with
  | none => s
  | some parentId =>
    let pm := adel todoId s.parentMap
    let co :=
      match alookup parentId s.childOrder with
      | some children =>
        let filtered := children.filter (fun i => !(i == todoId))
        if filtered.isEmpty then adel parentId s.childOrder
        else aset parentId filtered s.childOrder
      | none => s.childOrder
    let s1 := removeTodoFromSections todoId { s with parentMap := pm, childOrder := co }
    let parentRootIdx := jsIndexOf parentId s1.priorityOrder
    let po := if parentRootIdx = -1 then s1.priorityOrder ++ [todoId]
      else jsSpliceIns s1.priorityOrder (parentRootIdx + 1) todoId
    { s1 with priorityOrder := po }

/-- cleanupStaleData: drop every parentMap entry whose child or parent is not
live, filter non-live ids out of every childOrder list (deleting lists that
end up empty), drop assignments of non-live ids, and filter non-live ids out
of every sectionOrder list (which is never deleted).  priorityOrder is not
touched. -/
def cleanupStaleData (validIds : List TodoId) (s : SidebarState) : SidebarState :=
  { s with
    parentMap := s.parentMap.filter (fun e => validIds.contains e.1 && validIds.contains e.2)
    childOrder := (s.childOrder.map (fun e => (e.1, e.2.filter validIds.contains))).filter
      (fun e => !(e.2.isEmpty))
    assignments := s.assignments.filter (fun e => validIds.contains e.1)
    sectionOrder := s.sectionOrder.map (fun e => (e.1, e.2.filter validIds.contains)) }

/-- The defaultSort setting. -/
inductive DefaultSort
  | date
  | source
  | priority
deriving DecidableEq

/-- defaultSortCompare under a given localeCompare implementation. -/
def defaultSortCompare (localeCompare : String → String → Int) (defaultSort : DefaultSort)
    (a b : Todo) : Int :=
  match defaultSort with
  | .date => b.capturedAt - a.capturedAt
  | .source => localeCompare a.path b.path
  | .priority => 0

/-- The comparator sortTodos passes to Array.prototype.sort when
priorityOrder is non-empty. -/
def sortCompare (localeCompare : String → String → Int) (defaultSort : DefaultSort)
    (order : List TodoId) (a b : Todo) : Int :=
  let aIndex := jsIndexOf a.id order
  let bIndex := jsIndexOf b.id order
  if aIndex ≠ -1 ∧ bIndex ≠ -1 then aIndex - bIndex
  else if aIndex ≠ -1 then -1
  else if bIndex ≠ -1 then 1
  else defaultSortCompare localeCompare defaultSort a b

/-- sortTodos: stable sort of the flat item list, by the priority comparator
when priorityOrder is non-empty and by the default policy otherwise. -/
def sortTodos (localeCompare : String → String → Int) (defaultSort : DefaultSort)
    (order : List TodoId) (todos : List Todo) : List Todo :=
  if 0 < order.length then
    List.insertionSort (fun a b => sortCompare localeCompare defaultSort order a b ≤ 0) todos
  else
    List.insertionSort (fun a b => defaultSortCompare localeCompare defaultSort a b ≤ 0) todos


/-! ## Pointwise lemmas about the embedded JS-object operations -/

theorem alookup_aset {α : Type} (k x : TodoId) (v : α) (m : List (TodoId × α)) :
    alookup x (aset k v m) = if k = x then some v else alookup x m := by
  induction m with
  | nil => rfl
  | cons e rest ih =>
    obtain ⟨k0, v0⟩ := e
    by_cases hek : k0 = k
    · subst hek
      by_cases hkx : k0 = x
      · simp [aset, alookup, hkx]
      · simp [aset, alookup, hkx]
    · by_cases hex : k0 = x
      · subst hex
        have hkx : ¬k = k0 := fun hk => hek hk.symm
        simp [aset, alookup, hek, hkx]
      · simp [aset, alookup, hek, hex, ih]

theorem alookup_adel {α : Type} (k x : TodoId) (m : List (TodoId × α)) :
    alookup x (adel k m) = if x = k then none else alookup x m := by
  induction m with
  | nil => simp [adel, alookup]
  | cons e rest ih =>
    obtain ⟨k0, v0⟩ := e
    by_cases hek : k0 = k
    · subst hek
      by_cases hkx : x = k0
      · subst hkx
        simp only [adel, alookup, if_pos rfl]
        simpa using ih
      · have : ¬k0 = x := fun h => hkx h.symm
        simp [adel, alookup, this, hkx, ih]
    · by_cases hex : k0 = x
      · subst hex
        have hxk : ¬k0 = k := hek
        simp [adel, alookup, hek, hxk]
      · simp [adel, alookup, hek, hex, ih]

theorem mem_keys_of_alookup {α : Type} {x : TodoId} {v : α} {m : List (TodoId × α)}
    (h : alookup x m = some v) : x ∈ m.map Prod.fst := by
  induction m with
  | nil => simp [alookup] at h
  | cons e rest ih =>
    simp only [alookup] at h
    by_cases hex : e.1 = x
    · simp [hex.symm]
    · simp only [hex, if_false] at h
      simp [ih h]

theorem alookup_eq_none {α : Type} {x : TodoId} {m : List (TodoId × α)}
    (h : x ∉ m.map Prod.fst) : alookup x m = none := by
  induction m with
  | nil => rfl
  | cons e rest ih =>
    simp only [List.map_cons, List.mem_cons] at h
    push_neg at h
    have : ¬e.1 = x := fun hh => h.1 hh.symm
    simp [alookup, this, ih h.2]

theorem alookup_filter_of_nodup {α : Type} (p : TodoId × α → Bool) {m : List (TodoId × α)}
    (h : keysNodup m) (x : TodoId) :
    alookup x (m.filter p) =
      (alookup x m).bind (fun v => if p (x, v) then some v else none) := by
  induction m with
  | nil => rfl
  | cons e rest ih =>
    obtain ⟨k0, v0⟩ := e
    have hk : keysNodup ((k0, v0) :: rest) := h
    rw [keysNodup, List.map_cons, List.nodup_cons] at hk
    obtain ⟨hnotin, hrest⟩ := hk
    by_cases hex : k0 = x
    · subst hex
      have hnone : alookup k0 rest = none := alookup_eq_none hnotin
      have hnonef : alookup k0 (rest.filter p) = none := by
        apply alookup_eq_none
        intro hc
        rcases List.mem_map.mp hc with ⟨a, ha, haeq⟩
        exact hnotin (List.mem_map.mpr ⟨a, (List.mem_filter.mp ha).1, haeq⟩)
      rw [List.filter_cons]
      by_cases hp : p (k0, v0) = true
      · simp [hp, alookup]
      · simp only [Bool.not_eq_true] at hp
        simp [hp, alookup, hnone, hnonef]
    · rw [List.filter_cons]
      by_cases hp : p (k0, v0) = true
      · simp [hp, alookup, hex, ih hrest]
      · simp only [Bool.not_eq_true] at hp
        simp [hp, alookup, hex, ih hrest]

theorem alookup_map_val {α β : Type} (f : α → β) (m : List (TodoId × α)) (x : TodoId) :
    alookup x (m.map (fun e => (e.1, f e.2))) = (alookup x m).map f := by
  induction m with
  | nil => rfl
  | cons e rest ih =>
    by_cases hex : e.1 = x <;> simp [alookup, hex, ih]

/-! ## Helper lemmas about parseLine -/

theorem parseLine_indent {line filePath : String} {n : Nat} {cap : Int} {t : Todo}
    (h : parseLine line n filePath cap = some t) : t.indent = getIndentLevel line := by
  unfold parseLine at h
  split at h
  · split at h
    · injection h with h'
      subst h'
      rfl
    · exact absurd h (by simp)
  · exact absurd h (by simp)

theorem parseLine_id {line filePath : String} {n : Nat} {cap : Int} {t : Todo}
    (h : parseLine line n filePath cap = some t) : t.id = generateId filePath (jsTrim line) := by
  unfold parseLine at h
  split at h
  · split at h
    · injection h with h'
      subst h'
      rfl
    · exact absurd h (by simp)
  · exact absurd h (by simp)

/-! ## C1 -/

/-- Pre-state for the acyclicity violation: a single nesting edge b → a
(b is a child of a), no sections, empty priority order.  This is a state the
store itself produces by nesting b under a. -/
def reorderCycleState : SidebarState :=
  SidebarState.mk [] [("b", "a")] [("a", ["b"])] [] []

/-- C1: FALSIFIED ON THE CODE (code bug).  The pre-state's parent map is
acyclic: its only chain is b → a and stops there (a has no parent entry).
Yet a single handleDropReorder call — dragging `a` right before its own
child `b` — re-parents `a` onto `parentMap[b] = a`, producing the self-loop
`a → a`: after the call `a` is its own ancestor, so the mutation corrupted
acyclicity.  handleDropNest guards against exactly this with isDescendantOf;
handleDropReorder performs the same re-parenting with no such guard. -/
theorem handleDropReorder_creates_cycle :
    parentIterN reorderCycleState.parentMap 1 "b" = some "a" ∧
    parentIterN reorderCycleState.parentMap 2 "b" = none ∧
    alookup "a" reorderCycleState.parentMap = none ∧
    parentIterN
      (handleDropReorder "a" "b" DropPosition.before reorderCycleState).parentMap 1 "a" =
      some "a" := by
  refine ⟨by decide, by decide, by decide, by decide⟩

/-! ## C2 (counterexample part) -/

/-- Pre-state for the C2 counterexample: `x` sits in priorityOrder and in the
order list of section `s`; `x` is about to disappear from the live set. -/
def cleanupClaimState : SidebarState :=
  SidebarState.mk ["x"] [] [] [] [("s", ["x"])]

/-- C2 counterexample: with live set ∅, reconciliation leaves the stale id
`x` in priorityOrder (the claim says every reference to a non-live id is
deleted from all five stores), and keeps section `s`'s order list as an
empty list instead of dropping it (the claim says empty section-order lists
are dropped). -/
theorem cleanupStaleData_counterexample :
    (cleanupStaleData [] cleanupClaimState).priorityOrder = ["x"] ∧
    alookup "s" (cleanupStaleData [] cleanupClaimState).sectionOrder = some [] := by
  refine ⟨by decide, by decide⟩

/-! ## C4 (counterexample part) -/

/-- Pre-state for the C4 counterexample: `a` is nested under `p`. -/
def assignNestState : SidebarState :=
  SidebarState.mk ["a"] [("a", "p")] [("p", ["a"])] [] []

/-- C4 counterexample: assignToSection does not detach the item's nesting:
after assigning nested item `a` to section `s1`, the nesting edge a → p and
a's membership in p's child list are both still present (the claim says the
item's nesting is detached). -/
theorem assignToSection_counterexample :
    alookup "a" (assignToSection "a" "s1" assignNestState).parentMap = some "p" ∧
    alookup "p" (assignToSection "a" "s1" assignNestState).childOrder = some ["a"] := by
  refine ⟨by decide, by decide⟩

/-! ## C6 (counterexample part) -/

/-- Pre-state for the C6 counterexample: `b` has parent `a`, but `b` also
occurs (stale) in `c`'s child list. -/
def unnestTraceState : SidebarState :=
  SidebarState.mk ["a"] [("b", "a")] [("a", ["b"]), ("c", ["b"])] [] []

/-- C6 counterexample: un-nesting `b` only cleans the former parent's child
list; the occurrence of `b` in `c`'s child list survives the call, so the
claim's "leaving no occurrence of the id in any childOrder list" fails.
(The source removes the id from childOrder[parentId] alone.) -/
theorem unnestTodo_counterexample :
    truthyStr (alookup "b" unnestTraceState.parentMap) = some "a" ∧
    alookup "c" (unnestTodo "b" unnestTraceState).childOrder = some ["b"] := by
  refine ⟨by decide, by decide⟩

/-! ## C8 (counterexample part) -/

/-- The indent formula exactly as the claim words it: (number of tabs) +
floor(number of plain spaces / 2), over the leading whitespace run. -/
def claimedIndentLevel (line : String) : Nat :=
  let ws := line.data.takeWhile jsWhitespace
  let tabs := (ws.filter (fun c => c == '\t')).length
  let plainSpaces := (ws.filter (fun c => c == ' ')).length
  tabs + plainSpaces / 2

/-- C8 counterexample: a line whose leading whitespace is two form-feed
characters (matched by the `\s*` of the line regex) parses with indent
level 1 — the source counts every non-tab whitespace character via
`whitespace.replace(/\t/g, '').length` — while the claim's formula
(tabs + floor(plainSpaces / 2)) gives 0. -/
theorem getIndentLevel_counterexample :
    (parseLine "\x0c\x0c- [ ] A" 1 "p" 0).map Todo.indent = some 1 ∧
    claimedIndentLevel "\x0c\x0c- [ ] A" = 0 := by
  refine ⟨by decide, by decide⟩

/-! ## C9 -/

/-- C9 counterexample: the id hash is the 31-multiplier 32-bit string hash,
so distinct trimmed lines can collide.  With any fixed path, the trimmed
lines `- [ ] Aa` and `- [ ] BB` (which differ) hash identically
(65·31 + 97 = 66·31 + 66), hence produce the same id. -/
theorem generateId_collision :
    generateId "p" "- [ ] Aa" = generateId "p" "- [ ] BB" ∧
    ("- [ ] Aa" : String) ≠ "- [ ] BB" := by
  refine ⟨by decide, by decide⟩

/-- C9 (amended): id generation is deterministic in (path, trimmed line):
any two parsed lines with the same path and the same trimmed content get
the same id, regardless of line number, captured date, or surrounding
whitespace.  (The injectivity half of the original claim is refuted by
generateId_collision.) -/
theorem parseLine_id_deterministic :
    ∀ (l1 l2 filePath : String) (n1 n2 : Nat) (c1 c2 : Int) (t1 t2 : Todo),
      jsTrim l1 = jsTrim l2 →
      parseLine l1 n1 filePath c1 = some t1 →
      parseLine l2 n2 filePath c2 = some t2 →
      t1.id = t2.id := by
  intro l1 l2 filePath n1 n2 c1 c2 t1 t2 htrim h1 h2
  rw [parseLine_id h1, parseLine_id h2, htrim]

/-- Witness for parseLine_id_deterministic: the same trimmed line at two
different positions and captured dates yields the same id. -/
theorem parseLine_id_deterministic_witness :
    jsTrim "- [ ] T" = jsTrim "  - [ ] T  " ∧
    parseLine "- [ ] T" 1 "p" 0 = some ((parseLine "- [ ] T" 1 "p" 0).getD
      (Todo.mk "" "" false "" 0 0 [] 0)) ∧
    parseLine "  - [ ] T  " 7 "p" 5 = some ((parseLine "  - [ ] T  " 7 "p" 5).getD
      (Todo.mk "" "" false "" 0 0 [] 0)) ∧
    Todo.id ((parseLine "- [ ] T" 1 "p" 0).getD (Todo.mk "" "" false "" 0 0 [] 0)) =
      Todo.id ((parseLine "  - [ ] T  " 7 "p" 5).getD (Todo.mk "" "" false "" 0 0 [] 0)) := by
  refine ⟨by decide, by rfl, by rfl, ?_⟩
  exact parseLine_id_deterministic "- [ ] T" "  - [ ] T  " "p" 1 7 0 5
    ((parseLine "- [ ] T" 1 "p" 0).getD (Todo.mk "" "" false "" 0 0 [] 0))
    ((parseLine "  - [ ] T  " 7 "p" 5).getD (Todo.mk "" "" false "" 0 0 [] 0))
    (by decide) (by rfl) (by rfl)

/-! ## C10 -/

theorem flattenTodos_eq_filter_preorder (ts : List Todo) (inc : Bool) :
    flattenTodos ts inc = (preorderTodos ts).filter (fun t => !t.completed || inc) := by
  induction ts, inc using flattenTodos.induct with
  | case1 inc => simp [flattenTodos, preorderTodos]
  | case2 i t c p l ind ch cap rest inc ih1 ih2 =>
    simp only [flattenTodos, preorderTodos, List.filter_cons, List.filter_append, ih1, ih2,
      Todo.completed]
    split <;> simp

/-- C10: with includeCompleted = false, flattening equals the depth-first
preorder of the whole forest filtered to incomplete items: a completed item
is omitted but its subtree is still traversed, so every incomplete
descendant of a completed item appears, and all emitted items appear in
preorder. -/
theorem flattenTodos_preorder :
    ∀ ts : List Todo, flattenTodos ts false = (preorderTodos ts).filter (fun t => !t.completed) := by
  intro ts
  simpa using flattenTodos_eq_filter_preorder ts false

/-! ## C8 (amended part) -/

/-- The indent formula with the counterexample's forced amendment: every
non-tab character of the leading whitespace run counts as a space. -/
def specIndentLevel (line : String) : Nat :=
  let ws := line.data.takeWhile jsWhitespace
  let tabs := (ws.filter (fun c => c == '\t')).length
  tabs + (ws.length - tabs) / 2

/-- Two-level structural shape of a parsed item: its text, and for each child
its text and the texts of its grandchildren. -/
def todoShape2 (t : Todo) : String × List (String × List String) :=
  (t.text, t.children.map (fun c => (c.text, c.children.map Todo.text)))

/-- C8 (amended): every parsed line's indent level is (number of tabs) +
floor((number of non-tab whitespace characters) / 2) over its leading
whitespace (the counterexample getIndentLevel_counterexample forces
"plain spaces" to become "non-tab whitespace characters"); and the stack
construction of structural nesting behaves as claimed on the spec's
example: for lines `- [ ] A`, tab-`- [ ] B`, tab-`- [ ] C`, `- [ ] D`,
item A has exactly the children [B, C] (both leaves) and D is a top-level
sibling with no children. -/
theorem parseFile_indent_and_stack :
    (∀ (line filePath : String) (n : Nat) (cap : Int) (t : Todo),
        parseLine line n filePath cap = some t → t.indent = specIndentLevel line) ∧
    (parseFile "p" 0 "- [ ] A\n\t- [ ] B\n\t- [ ] C\n- [ ] D").map todoShape2 =
      [("A", [("B", []), ("C", [])]), ("D", [])] := by
  constructor
  · intro line filePath n cap t h
    rw [parseLine_indent h]
    rfl
  · rfl

/-- Witness for parseFile_indent_and_stack: its indent formula applied to a
concrete tab-indented line. -/
theorem parseFile_indent_and_stack_witness :
    parseLine "\t- [ ] B" 2 "p" 0 = some ((parseLine "\t- [ ] B" 2 "p" 0).getD
      (Todo.mk "" "" false "" 0 0 [] 0)) ∧
    Todo.indent ((parseLine "\t- [ ] B" 2 "p" 0).getD (Todo.mk "" "" false "" 0 0 [] 0)) =
      specIndentLevel "\t- [ ] B" := by
  refine ⟨by rfl, ?_⟩
  exact parseFile_indent_and_stack.1 "\t- [ ] B" "p" 2 0
    ((parseLine "\t- [ ] B" 2 "p" 0).getD (Todo.mk "" "" false "" 0 0 [] 0)) (by rfl)

/-! ## Per-operation pointwise lemmas -/

theorem removeTodoFromNesting_parentMap (todoId x : TodoId) (s : SidebarState) :
    alookup x (removeTodoFromNesting todoId s).parentMap =
      if x = todoId then none else alookup x s.parentMap :=
  alookup_adel todoId x s.parentMap

theorem removeTodoFromNesting_assignments (todoId : TodoId) (s : SidebarState) :
    (removeTodoFromNesting todoId s).assignments = s.assignments := rfl

theorem removeTodoFromNesting_sectionOrder (todoId : TodoId) (s : SidebarState) :
    (removeTodoFromNesting todoId s).sectionOrder = s.sectionOrder := rfl

theorem removeTodoFromNesting_priorityOrder (todoId : TodoId) (s : SidebarState) :
    (removeTodoFromNesting todoId s).priorityOrder =
      s.priorityOrder.filter (fun i => !(i == todoId)) := rfl

theorem removeTodoFromNesting_childOrder (todoId x : TodoId) (s : SidebarState)
    (h : keysNodup s.childOrder) :
    alookup x (removeTodoFromNesting todoId s).childOrder =
      (alookup x s.childOrder).bind (fun l =>
        if (l.filter (fun i => !(i == todoId))).isEmpty then none
        else some (l.filter (fun i => !(i == todoId)))) := by
  show alookup x ((s.childOrder.map
      (fun e => (e.1, e.2.filter (fun i => !(i == todoId))))).filter
      (fun e => !(e.2.isEmpty))) = _
  have hnd : keysNodup (s.childOrder.map
      (fun e => (e.1, e.2.filter (fun i => !(i == todoId))))) := by
    unfold keysNodup at h ⊢
    simpa [List.map_map, Function.comp] using h
  rw [alookup_filter_of_nodup _ hnd x, alookup_map_val]
  cases hx : alookup x s.childOrder with
  | none => rfl
  | some l =>
    simp only [Option.map_some']
    cases he : (l.filter (fun i => !(i == todoId))).isEmpty <;> simp [he]

theorem removeTodoFromSections_parentMap (todoId : TodoId) (s : SidebarState) :
    (removeTodoFromSections todoId s).parentMap = s.parentMap := rfl

theorem removeTodoFromSections_childOrder (todoId : TodoId) (s : SidebarState) :
    (removeTodoFromSections todoId s).childOrder = s.childOrder := rfl

theorem removeTodoFromSections_priorityOrder (todoId : TodoId) (s : SidebarState) :
    (removeTodoFromSections todoId s).priorityOrder = s.priorityOrder := rfl

theorem removeTodoFromSections_assignments (todoId x : TodoId) (s : SidebarState) :
    alookup x (removeTodoFromSections todoId s).assignments =
      if x = todoId then none else alookup x s.assignments :=
  alookup_adel todoId x s.assignments

theorem removeTodoFromSections_removes (todoId sid0 : TodoId) (s : SidebarState)
    (h : truthyStr (alookup todoId s.assignments) = some sid0) :
    ∀ l, alookup sid0 (removeTodoFromSections todoId s).sectionOrder = some l → todoId ∉ l := by
  intro l hl
  show todoId ∉ l
  unfold removeTodoFromSections at hl
  simp only [h] at hl
  cases hso : alookup sid0 s.sectionOrder with
  | some order =>
    simp only [hso] at hl
    rw [alookup_aset] at hl
    simp only [if_pos rfl] at hl
    injection hl with hl
    subst hl
    intro hmem
    have := (List.mem_filter.mp hmem).2
    simp at this
  | none =>
    simp only [hso] at hl
    exact absurd hl (by simp)

theorem removeTodoFromSections_sectionOrder_other (todoId sid : TodoId) (s : SidebarState)
    (h : truthyStr (alookup todoId s.assignments) ≠ some sid) :
    alookup sid (removeTodoFromSections todoId s).sectionOrder =
      alookup sid s.sectionOrder := by
  unfold removeTodoFromSections
  cases ha : truthyStr (alookup todoId s.assignments) with
  | none => rfl
  | some sid0 =>
    have hne : sid0 ≠ sid := fun hh => h (hh ▸ ha)
    simp only
    cases hso : alookup sid0 s.sectionOrder with
    | some order =>
      rw [alookup_aset]
      simp [hne]
    | none => rfl

/-! ## C4 (amended part) -/

theorem assignToSection_sectionOrder_eq (todoId sectionId : TodoId) (s : SidebarState) :
    (assignToSection todoId sectionId s).sectionOrder =
      (let r := (removeTodoFromSections todoId s).sectionOrder
       let so1 := match alookup sectionId r with | some _ => r | none => aset sectionId [] r
       let cur := (alookup sectionId so1).getD []
       if cur.contains todoId then so1 else aset sectionId (cur ++ [todoId]) so1) := rfl

/-- C4 (amended): assignToSection(id, sectionId) leaves nesting (parentMap
and childOrder) untouched — the counterexample assignToSection_counterexample
refutes the claimed nesting detach — detaches the item's prior section
membership, removes the id from priorityOrder, sets assignments[id] =
sectionId, and appends the id to that section's order list if it is not
already present (creating the list when missing). -/
theorem assignToSection_spec (s : SidebarState) (todoId sectionId : TodoId) :
    (assignToSection todoId sectionId s).parentMap = s.parentMap ∧
    (assignToSection todoId sectionId s).childOrder = s.childOrder ∧
    (assignToSection todoId sectionId s).priorityOrder =
      s.priorityOrder.filter (fun i => !(i == todoId)) ∧
    alookup todoId (assignToSection todoId sectionId s).assignments = some sectionId ∧
    (∀ oldSid, truthyStr (alookup todoId s.assignments) = some oldSid → oldSid ≠ sectionId →
      ∀ l, alookup oldSid (assignToSection todoId sectionId s).sectionOrder = some l →
        todoId ∉ l) ∧
    (∀ base, alookup sectionId (removeTodoFromSections todoId s).sectionOrder = some base →
      alookup sectionId (assignToSection todoId sectionId s).sectionOrder =
        some (if todoId ∈ base then base else base ++ [todoId])) ∧
    (alookup sectionId (removeTodoFromSections todoId s).sectionOrder = none →
      alookup sectionId (assignToSection todoId sectionId s).sectionOrder = some [todoId]) := by
  refine ⟨rfl, rfl, rfl, ?_, ?_, ?_, ?_⟩
  · show alookup todoId (aset todoId sectionId (adel todoId s.assignments)) = some sectionId
    rw [alookup_aset]
    simp
  · intro oldSid hold hne l hl
    rw [assignToSection_sectionOrder_eq] at hl
    simp only at hl
    have hns : ¬sectionId = oldSid := fun hh => hne hh.symm
    cases h1 : alookup sectionId (removeTodoFromSections todoId s).sectionOrder with
    | some v =>
      rw [h1] at hl
      split at hl
      · exact removeTodoFromSections_removes todoId oldSid s hold l hl
      · rw [alookup_aset] at hl
        rw [if_neg hns] at hl
        exact removeTodoFromSections_removes todoId oldSid s hold l hl
    | none =>
      rw [h1] at hl
      split at hl
      · rw [alookup_aset, if_neg hns] at hl
        exact removeTodoFromSections_removes todoId oldSid s hold l hl
      · rw [alookup_aset, if_neg hns, alookup_aset, if_neg hns] at hl
        exact removeTodoFromSections_removes todoId oldSid s hold l hl
  · intro base hb
    rw [assignToSection_sectionOrder_eq]
    simp only [hb, Option.getD_some]
    cases hc : base.contains todoId with
    | true =>
      have hmem : todoId ∈ base := by simpa using hc
      simp [hb, hmem]
    | false =>
      have hmem : todoId ∉ base := by
        intro hm
        have hc2 : base.contains todoId = true := by simpa using hm
        rw [hc] at hc2
        exact absurd hc2 (by simp)
      rw [if_neg (by simp [hmem]), alookup_aset, if_pos rfl]
      simp [hmem]
  · intro hb
    rw [assignToSection_sectionOrder_eq]
    simp only [hb]
    rw [alookup_aset, if_pos rfl]
    simp only [Option.getD_some, List.nil_append]
    have : ([] : List TodoId).contains todoId = false := rfl
    rw [this]
    simp only [Bool.false_eq_true, if_false]
    rw [alookup_aset, if_pos rfl]

/-- Witness for assignToSection_spec at a concrete nested, sectioned state. -/
theorem assignToSection_spec_witness :
    alookup "a"
      (assignToSection "a" "s2"
        (SidebarState.mk ["a"] [("a", "p")] [("p", ["a"])] [("a", "s1")]
          [("s1", ["a"]), ("s2", ["z"])])).assignments = some "s2" ∧
    truthyStr (alookup "a" (SidebarState.mk ["a"] [("a", "p")] [("p", ["a"])] [("a", "s1")]
        [("s1", ["a"]), ("s2", ["z"])]).assignments) = some "s1" ∧
    ("s1" : TodoId) ≠ "s2" ∧
    alookup "s1"
      (assignToSection "a" "s2"
        (SidebarState.mk ["a"] [("a", "p")] [("p", ["a"])] [("a", "s1")]
          [("s1", ["a"]), ("s2", ["z"])])).sectionOrder = some [] ∧
    ("a" : TodoId) ∉ ([] : List TodoId) := by
  refine ⟨?_, by decide, by decide, by decide, ?_⟩
  · exact (assignToSection_spec
      (SidebarState.mk ["a"] [("a", "p")] [("p", ["a"])] [("a", "s1")]
        [("s1", ["a"]), ("s2", ["z"])]) "a" "s2").2.2.2.1
  · exact (assignToSection_spec
      (SidebarState.mk ["a"] [("a", "p")] [("p", ["a"])] [("a", "s1")]
        [("s1", ["a"]), ("s2", ["z"])]) "a" "s2").2.2.2.2.1 "s1" (by decide) (by decide) []
      (by decide)

/-! ## C6 (amended part) -/

theorem unnestTodo_eq_of_parent (s : SidebarState) (todoId pid : TodoId)
    (h : truthyStr (alookup todoId s.parentMap) = some pid) :
    unnestTodo todoId s =
      (let pm := adel todoId s.parentMap
       let co := match alookup pid s.childOrder with
         | some children =>
           if (children.filter (fun i => !(i == todoId))).isEmpty then adel pid s.childOrder
           else aset pid (children.filter (fun i => !(i == todoId))) s.childOrder
         | none => s.childOrder
       let s1 := removeTodoFromSections todoId { s with parentMap := pm, childOrder := co }
       let parentRootIdx := jsIndexOf pid s1.priorityOrder
       let po := if parentRootIdx = -1 then s1.priorityOrder ++ [todoId]
         else jsSpliceIns s1.priorityOrder (parentRootIdx + 1) todoId
       { s1 with priorityOrder := po }) := by
  unfold unnestTodo
  rw [h]

/-- C6 (amended): for every id with an existing (truthy) parent entry,
unnestTodo removes the nesting edge, clears any section assignment of the
id, reinserts the id into priorityOrder immediately after the former
parent's position (appending when the parent has no position there), and
leaves no occurrence of the id in the former parent's childOrder list (the
counterexample unnestTodo_counterexample shows occurrences under other
parents survive); with no truthy parent entry the call returns the state
unchanged. -/
theorem unnestTodo_spec (s : SidebarState) (todoId : TodoId) :
    (∀ pid, truthyStr (alookup todoId s.parentMap) = some pid →
      alookup todoId (unnestTodo todoId s).parentMap = none ∧
      alookup todoId (unnestTodo todoId s).assignments = none ∧
      (unnestTodo todoId s).priorityOrder =
        (if jsIndexOf pid s.priorityOrder = -1 then s.priorityOrder ++ [todoId]
         else jsSpliceIns s.priorityOrder (jsIndexOf pid s.priorityOrder + 1) todoId) ∧
      (∀ l, alookup pid (unnestTodo todoId s).childOrder = some l → todoId ∉ l)) ∧
    (truthyStr (alookup todoId s.parentMap) = none → unnestTodo todoId s = s) := by
  constructor
  · intro pid h
    rw [unnestTodo_eq_of_parent s todoId pid h]
    refine ⟨?_, ?_, ?_, ?_⟩
    · show alookup todoId (adel todoId s.parentMap) = none
      rw [alookup_adel]
      simp
    · show alookup todoId (adel todoId _) = none
      rw [alookup_adel]
      simp
    · rfl
    · intro l hl
      revert hl
      show alookup pid
        (match alookup pid s.childOrder with
         | some children =>
           if (children.filter (fun i => !(i == todoId))).isEmpty then adel pid s.childOrder
           else aset pid (children.filter (fun i => !(i == todoId))) s.childOrder
         | none => s.childOrder) = some l → todoId ∉ l
      cases hco : alookup pid s.childOrder with
      | some children =>
        simp only
        split
        · rw [alookup_adel]
          simp
        · rw [alookup_aset, if_pos rfl]
          intro hl
          injection hl with hl
          subst hl
          intro hmem
          have := (List.mem_filter.mp hmem).2
          simp at this
      | none =>
        simp only [hco]
        intro hl
        exact absurd hl (by simp [hco])
  · intro h
    unfold unnestTodo
    rw [h]

/-- Witness for unnestTodo_spec: un-nesting b (nested under a, assigned to a
section) clears its parent edge and assignment, reinserts b right after a
in the priority order, and leaves the former parent's child list free of b. -/
theorem unnestTodo_spec_witness :
    truthyStr (alookup "b" (SidebarState.mk ["a"] [("b", "a")] [("a", ["b"])]
        [("b", "sec")] [("sec", ["b"])]).parentMap) = some "a" ∧
    alookup "b" (unnestTodo "b" (SidebarState.mk ["a"] [("b", "a")] [("a", ["b"])]
        [("b", "sec")] [("sec", ["b"])])).parentMap = none ∧
    alookup "b" (unnestTodo "b" (SidebarState.mk ["a"] [("b", "a")] [("a", ["b"])]
        [("b", "sec")] [("sec", ["b"])])).assignments = none ∧
    (unnestTodo "b" (SidebarState.mk ["a"] [("b", "a")] [("a", ["b"])]
        [("b", "sec")] [("sec", ["b"])])).priorityOrder = ["a", "b"] := by
  have h := (unnestTodo_spec (SidebarState.mk ["a"] [("b", "a")] [("a", ["b"])]
      [("b", "sec")] [("sec", ["b"])]) "b").1 "a" (by decide)
  refine ⟨by decide, h.1, h.2.1, ?_⟩
  rw [h.2.2.1]
  decide

/-! ## C2 (amended part) -/

/-- C2 (amended): one run of cleanupStaleData deletes every reference to a
non-live id from parentMap (an entry survives only when both its child and
its parent are live), childOrder, assignments and sectionOrder; child lists
whose filtered form is empty are dropped; section-order lists are filtered
but their entries are never dropped, even when they become empty; and
priorityOrder is not touched at all.  Entries referencing only live ids are
left unchanged.  (The counterexample cleanupStaleData_counterexample refutes
the original claim's priorityOrder cleanup and section-order dropping.) -/
theorem cleanupStaleData_spec (validIds : List TodoId) (s : SidebarState)
    (h1 : keysNodup s.parentMap) (h2 : keysNodup s.childOrder)
    (h3 : keysNodup s.assignments) :
    (cleanupStaleData validIds s).priorityOrder = s.priorityOrder ∧
    (∀ c, alookup c (cleanupStaleData validIds s).parentMap =
      (alookup c s.parentMap).bind (fun p =>
        if validIds.contains c && validIds.contains p then some p else none)) ∧
    (∀ p, alookup p (cleanupStaleData validIds s).childOrder =
      (alookup p s.childOrder).bind (fun l =>
        if (l.filter validIds.contains).isEmpty then none
        else some (l.filter validIds.contains))) ∧
    (∀ i, alookup i (cleanupStaleData validIds s).assignments =
      (alookup i s.assignments).bind (fun sec =>
        if validIds.contains i then some sec else none)) ∧
    (∀ sec, alookup sec (cleanupStaleData validIds s).sectionOrder =
      (alookup sec s.sectionOrder).map (fun l => l.filter validIds.contains)) ∧
    (∀ c p, alookup c s.parentMap = some p → validIds.contains c = true →
      validIds.contains p = true →
      alookup c (cleanupStaleData validIds s).parentMap = some p) ∧
    (∀ pa l, alookup pa s.childOrder = some l → (∀ i ∈ l, validIds.contains i = true) →
      l ≠ [] → alookup pa (cleanupStaleData validIds s).childOrder = some l) ∧
    (∀ i sec, alookup i s.assignments = some sec → validIds.contains i = true →
      alookup i (cleanupStaleData validIds s).assignments = some sec) ∧
    (∀ sec l, alookup sec s.sectionOrder = some l → (∀ i ∈ l, validIds.contains i = true) →
      alookup sec (cleanupStaleData validIds s).sectionOrder = some l) := by
  have hpm : ∀ c, alookup c (cleanupStaleData validIds s).parentMap =
      (alookup c s.parentMap).bind (fun p =>
        if validIds.contains c && validIds.contains p then some p else none) := by
    intro c
    show alookup c (s.parentMap.filter
      (fun e => validIds.contains e.1 && validIds.contains e.2)) = _
    exact alookup_filter_of_nodup (fun e => validIds.contains e.1 && validIds.contains e.2) h1 c
  have hco : ∀ p, alookup p (cleanupStaleData validIds s).childOrder =
      (alookup p s.childOrder).bind (fun l =>
        if (l.filter validIds.contains).isEmpty then none
        else some (l.filter validIds.contains)) := by
    intro p
    show alookup p ((s.childOrder.map (fun e => (e.1, e.2.filter validIds.contains))).filter
      (fun e => !(e.2.isEmpty))) = _
    have hnd : keysNodup (s.childOrder.map (fun e => (e.1, e.2.filter validIds.contains))) := by
      unfold keysNodup at h2 ⊢
      simpa [List.map_map, Function.comp] using h2
    rw [alookup_filter_of_nodup _ hnd p, alookup_map_val]
    cases hx : alookup p s.childOrder with
    | none => rfl
    | some l =>
      simp only [Option.map_some']
      cases he : (l.filter validIds.contains).isEmpty <;> simp [he]
  have has : ∀ i, alookup i (cleanupStaleData validIds s).assignments =
      (alookup i s.assignments).bind (fun sec =>
        if validIds.contains i then some sec else none) := by
    intro i
    show alookup i (s.assignments.filter (fun e => validIds.contains e.1)) = _
    exact alookup_filter_of_nodup (fun e => validIds.contains e.1) h3 i
  have hso : ∀ sec, alookup sec (cleanupStaleData validIds s).sectionOrder =
      (alookup sec s.sectionOrder).map (fun l => l.filter validIds.contains) := by
    intro sec
    exact alookup_map_val (fun l => l.filter validIds.contains) s.sectionOrder sec
  refine ⟨rfl, hpm, hco, has, hso, ?_, ?_, ?_, ?_⟩
  · intro c p hc hvc hvp
    rw [hpm c, hc]
    simp only [Option.some_bind]
    rw [hvc, hvp]
    simp
  · intro pa l hl hall hne
    rw [hco pa, hl]
    simp only [Option.some_bind]
    have hfe : l.filter validIds.contains = l := List.filter_eq_self.mpr hall
    rw [hfe]
    simp [List.isEmpty_iff, hne]
  · intro i sec hi hvi
    rw [has i, hi]
    simp only [Option.some_bind]
    rw [hvi]
    simp
  · intro sec l hl hall
    rw [hso sec, hl]
    simp only [Option.map_some']
    rw [List.filter_eq_self.mpr hall]

/-- Witness for cleanupStaleData_spec: a state with one live-referencing and
one stale-referencing entry per map, at live set [a, b]. -/
theorem cleanupStaleData_spec_witness :
    keysNodup (SidebarState.mk ["x"] [("b", "a"), ("c", "x")] [("a", ["b", "x"])]
      [("b", "s1")] [("s1", ["b", "x"])]).parentMap ∧
    alookup "c" (cleanupStaleData ["a", "b"]
      (SidebarState.mk ["x"] [("b", "a"), ("c", "x")] [("a", ["b", "x"])]
        [("b", "s1")] [("s1", ["b", "x"])])).parentMap =
      (alookup "c" (SidebarState.mk ["x"] [("b", "a"), ("c", "x")] [("a", ["b", "x"])]
          [("b", "s1")] [("s1", ["b", "x"])]).parentMap).bind (fun p =>
        if ["a", "b"].contains "c" && ["a", "b"].contains p then some p else none) ∧
    (cleanupStaleData ["a", "b"]
      (SidebarState.mk ["x"] [("b", "a"), ("c", "x")] [("a", ["b", "x"])]
        [("b", "s1")] [("s1", ["b", "x"])])).priorityOrder = ["x"] := by
  refine ⟨by decide, ?_, ?_⟩
  · exact (cleanupStaleData_spec ["a", "b"]
      (SidebarState.mk ["x"] [("b", "a"), ("c", "x")] [("a", ["b", "x"])]
        [("b", "s1")] [("s1", ["b", "x"])]) (by decide) (by decide) (by decide)).2.1 "c"
  · exact (cleanupStaleData_spec ["a", "b"]
      (SidebarState.mk ["x"] [("b", "a"), ("c", "x")] [("a", ["b", "x"])]
        [("b", "s1")] [("s1", ["b", "x"])]) (by decide) (by decide) (by decide)).1

/-! ## C7 -/

/-- The insertion offset implied by a before/after drop relative to the
target's index. -/
def dropInsertIdx (position : DropPosition) (targetIdx : Int) : Int :=
  match position with
  | .before => targetIdx
  | .after => targetIdx + 1

/-- The spec's `detach(id)` step: every reorder/nest first removes the
dragged id from nesting (parent entry, all child lists, priorityOrder) and
from sections (assignment, its section's order list). -/
def detachTodo (draggedId : TodoId) (s : SidebarState) : SidebarState :=
  removeTodoFromSections draggedId (removeTodoFromNesting draggedId s)

/-- C7: handleDropReorder first detaches the dragged id, then inserts by
target context.  If the target has a (truthy) parent, the dragged id becomes
that parent's child and is spliced into the parent's (detached) child list
at the offset implied by position, while its own section assignment stays
cleared and priorityOrder keeps only the detach change.  Else, if the
target is (truthy) section-assigned, the dragged id is assigned to that
section and spliced into the section's order at the implied offset
(appended when the target is absent from it).  Else the dragged id is
spliced into priorityOrder at the implied offset relative to the target's
index, appended when the target is absent — so with root order [a, b, c],
reorder(c, a, before) yields [c, a, b] (see the witness). -/
theorem handleDropReorder_spec (s : SidebarState) (draggedId targetId : TodoId)
    (position : DropPosition) :
    (∀ tp, truthyStr (alookup targetId s.parentMap) = some tp →
      alookup draggedId (handleDropReorder draggedId targetId position s).parentMap = some tp ∧
      alookup draggedId (handleDropReorder draggedId targetId position s).assignments = none ∧
      (handleDropReorder draggedId targetId position s).priorityOrder =
        s.priorityOrder.filter (fun i => !(i == draggedId)) ∧
      alookup tp (handleDropReorder draggedId targetId position s).childOrder =
        some (jsSpliceIns ((alookup tp (detachTodo draggedId s).childOrder).getD [])
          (dropInsertIdx position
            (jsIndexOf targetId ((alookup tp (detachTodo draggedId s).childOrder).getD [])))
          draggedId)) ∧
    (truthyStr (alookup targetId s.parentMap) = none →
      ∀ sid, truthyStr (alookup targetId s.assignments) = some sid →
      alookup draggedId (handleDropReorder draggedId targetId position s).assignments =
        some sid ∧
      alookup draggedId (handleDropReorder draggedId targetId position s).parentMap = none ∧
      (handleDropReorder draggedId targetId position s).priorityOrder =
        s.priorityOrder.filter (fun i => !(i == draggedId)) ∧
      alookup sid (handleDropReorder draggedId targetId position s).sectionOrder =
        some (
          if jsIndexOf targetId ((alookup sid (detachTodo draggedId s).sectionOrder).getD [])
              = -1 then
            ((alookup sid (detachTodo draggedId s).sectionOrder).getD []) ++ [draggedId]
          else
            jsSpliceIns ((alookup sid (detachTodo draggedId s).sectionOrder).getD [])
              (dropInsertIdx position
                (jsIndexOf targetId
                  ((alookup sid (detachTodo draggedId s).sectionOrder).getD [])))
              draggedId)) ∧
    (truthyStr (alookup targetId s.parentMap) = none →
      truthyStr (alookup targetId s.assignments) = none →
      alookup draggedId (handleDropReorder draggedId targetId position s).parentMap = none ∧
      alookup draggedId (handleDropReorder draggedId targetId position s).assignments = none ∧
      (handleDropReorder draggedId targetId position s).childOrder =
        (removeTodoFromNesting draggedId s).childOrder ∧
      (handleDropReorder draggedId targetId position s).priorityOrder =
        (if jsIndexOf targetId (s.priorityOrder.filter (fun i => !(i == draggedId))) = -1 then
          s.priorityOrder.filter (fun i => !(i == draggedId)) ++ [draggedId]
        else
          jsSpliceIns (s.priorityOrder.filter (fun i => !(i == draggedId)))
            (dropInsertIdx position
              (jsIndexOf targetId (s.priorityOrder.filter (fun i => !(i == draggedId)))))
            draggedId)) := by
  refine ⟨?_, ?_, ?_⟩
  · intro tp htp
    refine ⟨?_, ?_, ?_, ?_⟩
    · cases position <;>
        (simp only [handleDropReorder, htp]
         rw [alookup_aset]
         simp)
    · cases position <;>
        (simp only [handleDropReorder, htp]
         rw [removeTodoFromSections_assignments]
         simp)
    · cases position <;> (simp only [handleDropReorder, htp]; rfl)
    · cases position <;>
        (simp only [handleDropReorder, htp, detachTodo, dropInsertIdx]
         rw [alookup_aset]
         simp)
  · intro htp sid hts
    refine ⟨?_, ?_, ?_, ?_⟩
    · cases position <;>
        (simp only [handleDropReorder, htp, hts]
         rw [alookup_aset]
         simp)
    · cases position <;>
        (simp only [handleDropReorder, htp, hts]
         show alookup draggedId (adel draggedId s.parentMap) = none
         rw [alookup_adel]
         simp)
    · cases position <;> (simp only [handleDropReorder, htp, hts]; rfl)
    · cases position <;>
        (simp only [handleDropReorder, htp, hts, detachTodo, dropInsertIdx]
         cases h1 : alookup sid
             (removeTodoFromSections draggedId
               (removeTodoFromNesting draggedId s)).sectionOrder <;>
           (simp only [h1]
            rw [alookup_aset]
            simp [alookup_aset]))
  · intro htp hts
    refine ⟨?_, ?_, ?_, ?_⟩
    · cases position <;>
        (simp only [handleDropReorder, htp, hts]
         show alookup draggedId (adel draggedId s.parentMap) = none
         rw [alookup_adel]
         simp)
    · cases position <;>
        (simp only [handleDropReorder, htp, hts]
         rw [removeTodoFromSections_assignments]
         simp)
    · cases position <;> (simp only [handleDropReorder, htp, hts]; rfl)
    · cases position <;> (simp only [handleDropReorder, htp, hts, dropInsertIdx]; rfl)

/-- Witness for handleDropReorder_spec: the claim's root-order example —
with priorityOrder [a, b, c] and no nesting or sections,
reorder(c, a, before) yields [c, a, b]. -/
theorem handleDropReorder_spec_witness :
    truthyStr (alookup "a" (SidebarState.mk ["a", "b", "c"] [] [] [] []).parentMap) = none ∧
    truthyStr (alookup "a" (SidebarState.mk ["a", "b", "c"] [] [] [] []).assignments) = none ∧
    (handleDropReorder "c" "a" DropPosition.before
      (SidebarState.mk ["a", "b", "c"] [] [] [] [])).priorityOrder = ["c", "a", "b"] := by
  refine ⟨by decide, by decide, ?_⟩
  have h := (handleDropReorder_spec (SidebarState.mk ["a", "b", "c"] [] [] [] [])
    "c" "a" DropPosition.before).2.2 (by decide) (by decide)
  rw [h.2.2.2]
  decide

/-! ## C5 -/

theorem orderedInsert_append_of_forall_le {α : Type} (r : α → α → Prop) [DecidableRel r]
    (x : α) (A B : List α) (h : ∀ b ∈ B, r x b) :
    List.orderedInsert r x (A ++ B) = List.orderedInsert r x A ++ B := by
  induction A with
  | nil =>
    cases B with
    | nil => rfl
    | cons b B' => simp [List.orderedInsert, h b (by simp)]
  | cons a A' ih =>
    by_cases hra : r x a
    · simp [List.orderedInsert, hra]
    · simp [List.orderedInsert, hra, ih]

theorem orderedInsert_append_of_forall_not {α : Type} (r : α → α → Prop) [DecidableRel r]
    (x : α) (A B : List α) (h : ∀ a ∈ A, ¬r x a) :
    List.orderedInsert r x (A ++ B) = A ++ List.orderedInsert r x B := by
  induction A with
  | nil => rfl
  | cons a A' ih =>
    have hna := h a (by simp)
    simp [List.orderedInsert, hna, ih (fun a' ha' => h a' (by simp [ha']))]

/-- A stable sort with a comparator that puts every p-element strictly before
every non-p-element splits as the sorted p-part followed by the sorted
non-p-part. -/
theorem insertionSort_partition {α : Type} (r : α → α → Prop) [DecidableRel r] (p : α → Bool)
    (hpq : ∀ x y, p x = true → p y = false → r x y ∧ ¬r y x) (l : List α) :
    List.insertionSort r l =
      List.insertionSort r (l.filter p) ++
      List.insertionSort r (l.filter (fun a => !(p a))) := by
  induction l with
  | nil => rfl
  | cons x l ih =>
    by_cases hx : p x = true
    · rw [List.filter_cons_of_pos hx, List.filter_cons_of_neg (by simp [hx])]
      simp only [List.insertionSort, ih]
      apply orderedInsert_append_of_forall_le
      intro b hb
      have hbmem : b ∈ l.filter (fun a => !(p a)) := (List.mem_insertionSort r).mp hb
      have hbp : p b = false := by
        have := (List.mem_filter.mp hbmem).2
        simpa using this
      exact (hpq x b hx hbp).1
    · have hx' : p x = false := by simpa using hx
      rw [List.filter_cons_of_neg (by simp [hx']), List.filter_cons_of_pos (by simp [hx'])]
      simp only [List.insertionSort, ih]
      rw [orderedInsert_append_of_forall_not]
      intro a ha
      have hamem : a ∈ l.filter p := (List.mem_insertionSort r).mp ha
      have hap : p a = true := (List.mem_filter.mp hamem).2
      exact (hpq a x hap hx').2

theorem orderedInsert_congr {α : Type} (r q : α → α → Prop) [DecidableRel r] [DecidableRel q]
    (x : α) (l : List α) (h : ∀ b ∈ l, r x b ↔ q x b) :
    List.orderedInsert r x l = List.orderedInsert q x l := by
  induction l with
  | nil => rfl
  | cons b l ih =>
    by_cases hrb : r x b
    · have hqb : q x b := (h b (by simp)).mp hrb
      simp [List.orderedInsert, hrb, hqb]
    · have hqb : ¬q x b := fun hq => hrb ((h b (by simp)).mpr hq)
      simp [List.orderedInsert, hrb, hqb, ih (fun b' hb' => h b' (by simp [hb']))]

/-- Two sorts agree when their relations agree on the list's elements. -/
theorem insertionSort_congr {α : Type} (r q : α → α → Prop) [DecidableRel r] [DecidableRel q] :
    ∀ l : List α, (∀ a ∈ l, ∀ b ∈ l, r a b ↔ q a b) →
      List.insertionSort r l = List.insertionSort q l := by
  intro l
  induction l with
  | nil => intro h; rfl
  | cons x l ih =>
    intro h
    have hrec := ih (fun a ha b hb => h a (by simp [ha]) b (by simp [hb]))
    simp only [List.insertionSort, hrec]
    apply orderedInsert_congr
    intro b hb
    have hbl : b ∈ l := (List.mem_insertionSort q).mp hb
    exact h x (by simp) b (by simp [hbl])

/-- Does the item's id occur in priorityOrder? -/
def presentIn (order : List TodoId) (t : Todo) : Bool := !(jsIndexOf t.id order == -1)

/-- C5: with a non-empty priorityOrder, the sorted list is the items whose
ids occur in priorityOrder — stably sorted by their index, ascending —
followed by all items absent from priorityOrder, stably sorted among
themselves by the default policy. -/
theorem sortTodos_priority_spec (lc : String → String → Int) (ds : DefaultSort)
    (order : List TodoId) (todos : List Todo) (h : order ≠ []) :
    sortTodos lc ds order todos =
      List.insertionSort (fun a b => jsIndexOf a.id order ≤ jsIndexOf b.id order)
        (todos.filter (presentIn order)) ++
      List.insertionSort (fun a b => defaultSortCompare lc ds a b ≤ 0)
        (todos.filter (fun t => !(presentIn order t))) := by
  have hlen : 0 < order.length := by
    cases order with
    | nil => exact absurd rfl h
    | cons a l => simp
  unfold sortTodos
  rw [if_pos hlen]
  rw [insertionSort_partition (fun a b => sortCompare lc ds order a b ≤ 0) (presentIn order)
    ?hpq todos]
  case hpq =>
    intro x y hx hy
    have hx' : jsIndexOf x.id order ≠ -1 := by simpa [presentIn] using hx
    have hy' : jsIndexOf y.id order = -1 := by simpa [presentIn] using hy
    constructor
    · show sortCompare lc ds order x y ≤ 0
      simp only [sortCompare]
      rw [if_neg (by intro hc; exact hc.2 hy'), if_pos hx']
      norm_num
    · show ¬sortCompare lc ds order y x ≤ 0
      simp only [sortCompare]
      rw [if_neg (by intro hc; exact hc.1 hy'), if_neg (by simpa using hy'), if_pos hx']
      norm_num
  congr 1
  · apply insertionSort_congr
    intro a ha b hb
    have ha' : jsIndexOf a.id order ≠ -1 := by
      have := (List.mem_filter.mp ha).2
      simpa [presentIn] using this
    have hb' : jsIndexOf b.id order ≠ -1 := by
      have := (List.mem_filter.mp hb).2
      simpa [presentIn] using this
    show sortCompare lc ds order a b ≤ 0 ↔ _
    simp only [sortCompare]
    rw [if_pos ⟨ha', hb'⟩]
    exact sub_nonpos
  · apply insertionSort_congr
    intro a ha b hb
    have ha' : jsIndexOf a.id order = -1 := by
      have := (List.mem_filter.mp ha).2
      simpa [presentIn] using this
    have hb' : jsIndexOf b.id order = -1 := by
      have := (List.mem_filter.mp hb).2
      simpa [presentIn] using this
    show sortCompare lc ds order a b ≤ 0 ↔ _
    simp only [sortCompare]
    rw [if_neg (by intro hc; exact hc.1 ha'), if_neg (by simpa using ha'),
      if_neg (by simpa using hb')]

/-- Witness for sortTodos_priority_spec: the spec's example — priorityOrder
[y, x], items x, y, z with z absent — sorts to [y, x, z]. -/
theorem sortTodos_priority_spec_witness :
    (["y", "x"] : List TodoId) ≠ [] ∧
    sortTodos (fun _ _ => 0) DefaultSort.priority ["y", "x"]
      [Todo.mk "x" "x" false "f" 1 0 [] 0, Todo.mk "y" "y" false "f" 2 0 [] 0,
       Todo.mk "z" "z" false "f" 3 0 [] 0] =
      [Todo.mk "y" "y" false "f" 2 0 [] 0, Todo.mk "x" "x" false "f" 1 0 [] 0,
       Todo.mk "z" "z" false "f" 3 0 [] 0] := by
  refine ⟨by decide, ?_⟩
  rw [sortTodos_priority_spec (fun _ _ => 0) DefaultSort.priority ["y", "x"]
    [Todo.mk "x" "x" false "f" 1 0 [] 0, Todo.mk "y" "y" false "f" 2 0 [] 0,
     Todo.mk "z" "z" false "f" 3 0 [] 0] (by decide)]
  rfl

/-! ## C3 -/

theorem parentIterN_succ_of_step {m : List (TodoId × TodoId)} {x p : TodoId}
    (h : truthyStr (alookup x m) = some p) (k : Nat) :
    parentIterN m (k + 1) x = parentIterN m k p := by
  show (match truthyStr (alookup x m) with
    | some q => parentIterN m k q
    | none => none) = parentIterN m k p
  rw [h]

theorem parentIterN_add (m : List (TodoId × TodoId)) (i j : Nat) (x : TodoId) :
    parentIterN m (i + j) x = (parentIterN m i x).bind (fun y => parentIterN m j y) := by
  induction i generalizing x with
  | zero => simp [parentIterN]
  | succ i ih =>
    have harith : i + 1 + j = (i + j) + 1 := by omega
    rw [harith]
    cases hs : truthyStr (alookup x m) with
    | some p =>
      rw [parentIterN_succ_of_step hs (i + j), parentIterN_succ_of_step hs i, ih p]
    | none =>
      show (match truthyStr (alookup x m) with
        | some q => parentIterN m (i + j) q
        | none => none) =
        Option.bind (match truthyStr (alookup x m) with
          | some q => parentIterN m i q
          | none => none) (fun y => parentIterN m j y)
      rw [hs]
      rfl

theorem parentIterN_isSome_of_le (m : List (TodoId × TodoId)) (i n : Nat) (x : TodoId)
    (hle : i ≤ n) (h : (parentIterN m n x).isSome = true) :
    (parentIterN m i x).isSome = true := by
  have harith : n = i + (n - i) := by omega
  rw [harith, parentIterN_add] at h
  cases hx : parentIterN m i x with
  | none => rw [hx] at h; simp at h
  | some y => simp

/-- If a chain of `d` parent steps from `cur` first reaches `anc` exactly at
step `d`, visits no already-visited node, and repeats no node, then the
source's ancestor walk answers true (given fuel for the remaining steps). -/
theorem isDescendantGo_of_path (m : List (TodoId × TodoId)) (anc : TodoId) :
    ∀ (d : Nat) (cur : TodoId) (visited : List TodoId) (fuel : Nat),
      0 < d → d ≤ fuel →
      parentIterN m d cur = some anc →
      (∀ k, 0 < k → k < d → parentIterN m k cur ≠ some anc) →
      (∀ k y, k < d → parentIterN m k cur = some y → y ∉ visited) →
      (∀ i j y z, i < j → j < d → parentIterN m i cur = some y →
        parentIterN m j cur = some z → y ≠ z) →
      isDescendantGo m anc fuel cur visited = true := by
  intro d
  induction d with
  | zero => intro cur visited fuel h0; exact absurd h0 (by omega)
  | succ d' ih =>
    intro cur visited fuel h0 hfuel hpath hmin hvis hdist
    cases fuel with
    | zero => omega
    | succ f =>
      cases hstep : truthyStr (alookup cur m) with
      | none =>
        have hnone : parentIterN m (d' + 1) cur = none := by
          show (match truthyStr (alookup cur m) with
            | some q => parentIterN m d' q
            | none => none) = none
          rw [hstep]
        rw [hnone] at hpath
        exact absurd hpath (by simp)
      | some p =>
        have hrest : parentIterN m d' p = some anc := by
          rw [parentIterN_succ_of_step hstep d'] at hpath
          exact hpath
        have hcurnot : cur ∉ visited := hvis 0 cur (by omega) rfl
        show isDescendantGo m anc (f + 1) cur visited = true
        unfold isDescendantGo
        rw [hstep]
        show (if visited.contains cur = true then false
          else if p = anc then true
          else isDescendantGo m anc f p (cur :: visited)) = true
        rw [if_neg (by simpa using hcurnot)]
        rcases Nat.eq_zero_or_pos d' with hd0 | hdpos
        · subst hd0
          have hpanc : p = anc := by simpa [parentIterN] using hrest
          rw [if_pos hpanc]
        · have h1 : parentIterN m 1 cur = some p := by
            rw [parentIterN_succ_of_step hstep 0]
            rfl
          have hpne : ¬p = anc := by
            intro hpe
            exact hmin 1 (by omega) (by omega) (by rw [h1, hpe])
          rw [if_neg hpne]
          apply ih p (cur :: visited) f hdpos (by omega) hrest
          · intro k hk0 hkd
            rw [← parentIterN_succ_of_step hstep k]
            exact hmin (k + 1) (by omega) (by omega)
          · intro k y hkd hky
            have hky' : parentIterN m (k + 1) cur = some y := by
              rw [parentIterN_succ_of_step hstep k]; exact hky
            have hynv : y ∉ visited := hvis (k + 1) y (by omega) hky'
            have hync : ¬y = cur := by
              intro hyc
              exact (hdist 0 (k + 1) cur y (by omega) (by omega) rfl hky') hyc.symm
            simp only [List.mem_cons]
            rintro (hc | hv)
            · exact hync hc
            · exact hynv hv
          · intro i j y z hij hjd hiy hjz
            exact hdist (i + 1) (j + 1) y z (by omega) (by omega)
              (by rw [parentIterN_succ_of_step hstep i]; exact hiy)
              (by rw [parentIterN_succ_of_step hstep j]; exact hjz)

/-- If `anc` is reachable from `x` by at least one parent step, the source's
bounded ancestor walk detects it: the minimal reaching chain repeats no node
and has length at most the number of parent-map entries, so the walk's fuel
and visited set never cut it short. -/
theorem isDescendantOf_of_reach (m : List (TodoId × TodoId)) (x anc : TodoId)
    (hex : ∃ n, 0 < n ∧ parentIterN m n x = some anc) :
    isDescendantOf m x anc = true := by
  obtain ⟨hn0, hnpath⟩ := Nat.find_spec hex
  have hmin : ∀ k, 0 < k → k < Nat.find hex → parentIterN m k x ≠ some anc :=
    fun k hk0 hklt hke => Nat.find_min hex hklt ⟨hk0, hke⟩
  have hdist : ∀ i j y z, i < j → j < Nat.find hex → parentIterN m i x = some y →
      parentIterN m j x = some z → y ≠ z := by
    intro i j y z hij hjn hiy hjz hyz
    rw [hyz] at hiy
    have h1 : parentIterN m (Nat.find hex - j) z = some anc := by
      have hh := hnpath
      rw [show Nat.find hex = j + (Nat.find hex - j) from by omega,
        parentIterN_add, hjz] at hh
      simpa using hh
    have h2 : parentIterN m (i + (Nat.find hex - j)) x = some anc := by
      rw [parentIterN_add, hiy]
      simpa using h1
    exact hmin (i + (Nat.find hex - j)) (by omega) (by omega) h2
  have hkey : ∀ i, i < Nat.find hex →
      ∃ y, parentIterN m i x = some y ∧ (alookup y m).isSome = true := by
    intro i hi
    have hiS : (parentIterN m i x).isSome = true :=
      parentIterN_isSome_of_le m i (Nat.find hex) x (by omega) (by rw [hnpath]; rfl)
    obtain ⟨y, hy⟩ := Option.isSome_iff_exists.mp hiS
    refine ⟨y, hy, ?_⟩
    have hi1 : (parentIterN m (i + 1) x).isSome = true :=
      parentIterN_isSome_of_le m (i + 1) (Nat.find hex) x (by omega) (by rw [hnpath]; rfl)
    rw [parentIterN_add m i 1 x, hy] at hi1
    simp only [Option.some_bind] at hi1
    cases ha : alookup y m with
    | some v => simp
    | none =>
      rw [show parentIterN m 1 y = none from by simp [parentIterN, ha, truthyStr]] at hi1
      simp at hi1
  have hLnodup : ((List.range (Nat.find hex)).map
      (fun i => (parentIterN m i x).getD "")).Nodup := by
    refine List.Nodup.map_on ?_ (List.nodup_range _)
    intro i hi j hj hfeq
    by_contra hne
    rcases Nat.lt_or_ge i j with hij | hge
    · obtain ⟨yi, hyi, _⟩ := hkey i (List.mem_range.mp hi)
      obtain ⟨yj, hyj, _⟩ := hkey j (List.mem_range.mp hj)
      have : yi ≠ yj := hdist i j yi yj hij (List.mem_range.mp hj) hyi hyj
      rw [hyi, hyj] at hfeq
      simp at hfeq
      exact this hfeq
    · have hji : j < i := by omega
      obtain ⟨yi, hyi, _⟩ := hkey i (List.mem_range.mp hi)
      obtain ⟨yj, hyj, _⟩ := hkey j (List.mem_range.mp hj)
      have : yj ≠ yi := hdist j i yj yi hji (List.mem_range.mp hi) hyj hyi
      rw [hyi, hyj] at hfeq
      simp at hfeq
      exact this hfeq.symm
  have hsub : ∀ y ∈ (List.range (Nat.find hex)).map (fun i => (parentIterN m i x).getD ""),
      y ∈ m.map Prod.fst := by
    intro y hy
    simp only [List.mem_map, List.mem_range] at hy
    obtain ⟨i, hi, hyi⟩ := hy
    obtain ⟨z, hz, hzs⟩ := hkey i hi
    rw [hz] at hyi
    simp only [Option.getD_some] at hyi
    obtain ⟨v, hv⟩ := Option.isSome_iff_exists.mp hzs
    exact hyi ▸ mem_keys_of_alookup hv
  have hcard : Nat.find hex ≤ m.length := by
    have h1 : ((List.range (Nat.find hex)).map
        (fun i => (parentIterN m i x).getD "")).length = Nat.find hex := by simp
    have h2 : ((List.range (Nat.find hex)).map
        (fun i => (parentIterN m i x).getD "")).toFinset.card =
        ((List.range (Nat.find hex)).map (fun i => (parentIterN m i x).getD "")).length :=
      List.toFinset_card_of_nodup hLnodup
    have h3 : ((List.range (Nat.find hex)).map
        (fun i => (parentIterN m i x).getD "")).toFinset.card ≤
        (m.map Prod.fst).toFinset.card := by
      apply Finset.card_le_card
      intro y hy
      exact List.mem_toFinset.mpr (hsub y (List.mem_toFinset.mp hy))
    have h4 : (m.map Prod.fst).toFinset.card ≤ (m.map Prod.fst).length :=
      List.toFinset_card_le _
    have h5 : (m.map Prod.fst).length = m.length := by simp
    omega
  show isDescendantGo m anc (m.length + 1) x [] = true
  apply isDescendantGo_of_path m anc (Nat.find hex) x [] (m.length + 1) hn0 (by omega)
    hnpath hmin
  · intro k y hk hky
    simp
  · exact hdist

/-- C3: when the proposed new parent is a (transitive, truthy-step)
descendant of the dragged item in parentMap — i.e. the dragged item is
reachable from the new parent by one or more parent steps — handleDropNest
declines silently: the returned state is the input state, unchanged in all
three stores. -/
theorem handleDropNest_rejects_descendant (s : SidebarState) (draggedId newParentId : TodoId)
    (h : ∃ n, 0 < n ∧ parentIterN s.parentMap n newParentId = some draggedId) :
    handleDropNest draggedId newParentId s = s := by
  unfold handleDropNest
  rw [if_pos (isDescendantOf_of_reach s.parentMap newParentId draggedId h)]

/-- Witness for handleDropNest_rejects_descendant: the spec's chain A→B→C
(C nested under B, B nested under A); nesting A under C is declined with the
state — nesting map included — unchanged. -/
theorem handleDropNest_rejects_descendant_witness :
    (0 < 2 ∧ parentIterN [("C", "B"), ("B", "A")] 2 "C" = some "A") ∧
    handleDropNest "A" "C"
      (SidebarState.mk [] [("C", "B"), ("B", "A")] [("A", ["B"]), ("B", ["C"])] [] []) =
      SidebarState.mk [] [("C", "B"), ("B", "A")] [("A", ["B"]), ("B", ["C"])] [] [] :=
  ⟨⟨by decide, by decide⟩,
    handleDropNest_rejects_descendant
      (SidebarState.mk [] [("C", "B"), ("B", "A")] [("A", ["B"]), ("B", ["C"])] [] [])
      "A" "C" ⟨2, by decide, by decide⟩⟩
